/-
Verification of the image store/index of the docker repository
(src/image/image.go) and of the container-creation rollback of the
server (src/unnamed/part_000, Server.CreateContainer), as a shallow
embedding in Lean 4.

Modelling conventions:
* Machine strings are Lean `String`s; timestamps (`time.Time`) are `Nat`
  ticks compared with `≤` (only comparison via `Before` matters).
* `future.ComputeId` (package `future`, not part of the sources verified
  here) is an opaque digest; all definitions are parameterized over a
  function `computeId : String → String`.  The spec only requires the
  digest to be a stable pure function of its input.
* Go maps are modelled as association lists `List (String × α)`; Go's map
  iteration order is unspecified, the model fixes one, and the only
  order-sensitive consumer (`Names`) sorts its output.
* The index file on disk is `FileState`: `missing` (ReadFile fails with
  IsNotExist), `invalid` (any other read failure, or `json.Unmarshal`
  failure), or `valid doc` holding the decoded document.  `save`'s
  filesystem effect is additionally recorded as a trace of primitive
  `FsOp`s so that the write-in-place behaviour of `ioutil.WriteFile`
  is observable.
* `json.Unmarshal` into an `*Index` is modelled as replacing the two maps
  with the document's maps (Go would merge into the existing maps, but
  every state produced by the operations below has its in-memory maps
  equal to the last loaded/saved document, where merge and replace
  coincide).  `load` restores `index.Path` as the source does.
* A Go panic (out-of-range index) is modelled as an error return.
-/
import Mathlib

namespace Docker

/-- Go `path.Base`: empty path gives ".", trailing slashes are stripped,
everything up to the last slash is dropped, an all-slash path gives "/". -/
def basename (p : String) : String :=
  if p = "" then "."
  else
    let stripped := p.data.reverse.dropWhile (fun c => c = '/')
    let base := (stripped.takeWhile (fun c => c ≠ '/')).reverse
    if base.isEmpty then "/" else String.mk base

/-- The loop of `generateImageId` for several layers: concatenate the
basenames of all layer paths (`ids += path.Base(layer)`). -/
def layersConcatIds (layers : List String) : String :=
  layers.foldl (fun acc l => acc ++ basename l) ""

/-- Embeds `generateImageId` (src/image/image.go:330-349): no layers is an
error; one layer hashes to the basename of its path; several layers hash to
`ComputeId` of the concatenated basenames (reading a `strings.Reader`
cannot fail, so `ComputeId` is total here). -/
def generateImageId (computeId : String → String) (name : String)
    (layers : List String) : Except String String :=
  match layers with
  | [] => .error "No layers provided."
  | [l] => .ok (name ++ ":" ++ basename l)
  | ls => .ok (name ++ ":" ++ computeId (layersConcatIds ls))

/-- Embeds the `Image` struct (src/image/image.go:310-315); `created` is an
abstract timestamp. -/
structure Image where
  id      : String
  layers  : List String
  created : Nat
  parent  : String
deriving DecidableEq, Repr

/-- The hash part of `generateImageId` as a total function (used only to
state theorems about nonempty layer lists). -/
def imageHash (computeId : String → String) : List String → String
  | [] => ""
  | [l] => basename l
  | ls => computeId (layersConcatIds ls)

/-- Embeds `NewImage` (src/image/image.go:351-362); `time.Now()` is the
parameter `now`. -/
def NewImage (computeId : String → String) (now : Nat) (name : String)
    (layers : List String) (parent : String) : Except String Image :=
  (generateImageId computeId name layers).map fun id =>
    { id := id, layers := layers, created := now, parent := parent }

/-- Embeds `type History []*Image`. -/
abbrev History := List Image

/-- The sort relation realized by `History.Less` (src/image/image.go:285-288):
`Less i j  ↔  images[j].Created.Before(images[i].Created)`, i.e. the slice is
sorted by creation time descending.  `sort.Sort` produces a permutation
sorted with respect to the reflexive closure of `Less`; ties are left in an
unspecified order by Go, and the model fixes one by using insertion sort. -/
def createdDesc (a b : Image) : Prop := b.created ≤ a.created

instance : DecidableRel createdDesc := fun a b => Nat.decLe b.created a.created

instance : IsTotal Image createdDesc :=
  ⟨fun a b => Nat.le_total b.created a.created⟩

instance : IsTrans Image createdDesc :=
  ⟨fun _ _ _ hab hbc => Nat.le_trans hbc hab⟩

/-- Embeds `History.Add` (src/image/image.go:297-300): append the image,
then `sort.Sort` the whole slice by creation time descending. -/
def History.add (image : Image) (history : History) : History :=
  List.insertionSort createdDesc (history ++ [image])

/-- Embeds `History.Del` (src/image/image.go:302-308). -/
def History.del (id : String) (history : History) : History :=
  history.filter (fun image => image.id ≠ id)

/-- Lookup in a Go map modelled as an association list. -/
def mlookup {α : Type} (k : String) : List (String × α) → Option α
  | [] => none
  | (k', v) :: t => if k' = k then some v else mlookup k t

/-- `delete(m, k)` on a Go map. -/
def merase {α : Type} (k : String) (m : List (String × α)) :
    List (String × α) :=
  m.filter (fun p => p.1 ≠ k)

/-- `m[k] = v` on a Go map.  Extensionally equal (as a key→value map) to
Go's update; the entry order is irrelevant, see the header comment. -/
def minsert {α : Type} (k : String) (v : α) (m : List (String × α)) :
    List (String × α) :=
  (k, v) :: merase k m

/-- The serialized index document: the two maps (the `Path` field is where
the document lives, not part of it). -/
structure IndexData where
  byName : List (String × History)
  byId   : List (String × Image)
deriving DecidableEq, Repr

/-- Embeds the `Index` struct (src/image/image.go:77-81): in-memory state. -/
structure Index where
  path   : String
  byName : List (String × History)
  byId   : List (String × Image)
deriving DecidableEq, Repr

/-- The content of the index file at `Index.Path`. -/
inductive FileState where
  | missing
  | invalid
  | valid (doc : IndexData)
deriving DecidableEq, Repr

/-- A system state: the index file on disk plus the in-memory `Index`. -/
structure Sys where
  disk  : FileState
  index : Index
deriving DecidableEq, Repr

/-- Primitive filesystem effects of persisting the index, recorded so that
the shape of `save` (direct write vs. write-then-rename) is observable. -/
inductive FsOp where
  | write (path : String) (doc : IndexData)
  | rename (src dst : String)
deriving DecidableEq, Repr

def FsOp.isRename : FsOp → Bool
  | .rename _ _ => true
  | _ => false

/-- `json.Marshal` of the in-memory index: the two maps. -/
def serialize (idx : Index) : IndexData :=
  { byName := idx.byName, byId := idx.byId }

/-- The filesystem effect of `Index.save` (src/image/image.go:266-275):
`ioutil.WriteFile(index.Path, jsonData, 0600)` — a single direct write of
the whole document to the index path. -/
def Index.saveOps (idx : Index) : List FsOp :=
  [FsOp.write idx.path (serialize idx)]

/-- Modelled from the spec: the atomic write-then-rename save the spec
prescribes ("write atomically (temp file + rename)", §4.3/§9) — the
document goes to a temporary file which is then renamed over the index
path.  For comparison with `Index.saveOps`. -/
def saveOpsAtomic (path : String) (doc : IndexData) : List FsOp :=
  [FsOp.write (path ++ ".tmp") doc, FsOp.rename (path ++ ".tmp") path]

/-- Embeds `Index.save` (src/image/image.go:266-275): the disk now holds
the serialized in-memory index (write errors are not modelled; the
filesystem effect is `Index.saveOps`). -/
def Index.save (idx : Index) : Sys :=
  { disk := .valid (serialize idx), index := idx }

def loadErr : String := "invalid index file"

/-- Embeds `Index.load` (src/image/image.go:250-264): a missing file is not
an error and leaves the in-memory index as it is; any other read failure or
an unmarshal failure is an error; a valid file replaces the maps and the
`Path` field is restored. -/
def Index.load (s : Sys) : Except String Index :=
  match s.disk with
  | .missing => .ok s.index
  | .invalid => .error loadErr
  | .valid doc =>
      .ok { path := s.index.path, byName := doc.byName, byId := doc.byId }

/-- Embeds `Index.Find` (src/image/image.go:96-110): reload (a load error
makes the result nil), then lookup by id, then by name taking the newest
history entry.  The reloaded in-memory state is not returned (no caller in
the claims observes it). -/
def Index.Find (idOrName : String) (s : Sys) : Option Image :=
  match Index.load s with
  | .error _ => none
  | .ok idx =>
    match mlookup idOrName idx.byId with
    | some image => some image
    | none =>
      match mlookup idOrName idx.byName with
      | some (top :: _) => some top
      | _ => none

/-- Result of a mutating index operation: the Go return value, the new
system state, and the trace of filesystem writes performed. -/
abbrev MutRes := Except String Unit × Sys × List FsOp

/-- Embeds `Index.Add` (src/image/image.go:112-132): load; a fresh name gets
an empty history; a duplicate-top add returns nil without saving; otherwise
the image is added to the history (append + sort), registered in `ById`,
and the index is saved.  Go indexes `(*index.ByName[name])[0]` even when
the stored history is empty, which panics; the panic is modelled as an
error return. -/
def Index.Add (name : String) (image : Image) (s : Sys) : MutRes :=
  match Index.load s with
  | .error e => (.error e, s, [])
  | .ok idx =>
    match mlookup name idx.byName with
    | some [] =>
        (.error "runtime error: index out of range", { s with index := idx }, [])
    | some (top :: rest) =>
      if top.id = image.id then
        (.ok (), { s with index := idx }, [])
      else
        let idx' : Index :=
          { idx with
            byName := minsert name (History.add image (top :: rest)) idx.byName,
            byId := minsert image.id image idx.byId }
        (.ok (), Index.save idx', idx'.saveOps)
    | none =>
      let idx' : Index :=
        { idx with
          byName := minsert name (History.add image []) idx.byName,
          byId := minsert image.id image idx.byId }
      (.ok (), Index.save idx', idx'.saveOps)

/-- Embeds `Index.Copy` (src/image/image.go:134-158): empty source or
destination name is rejected up front; otherwise load, find the source,
build a new image over the source's layers with the source's id as parent,
`Add` it, and save once more. -/
def Index.Copy (computeId : String → String) (now : Nat)
    (srcNameOrId dstName : String) (s : Sys) :
    Except String Image × Sys × List FsOp :=
  if srcNameOrId = "" ∨ dstName = "" then
    (.error "Illegal image name", s, [])
  else
    match Index.load s with
    | .error e => (.error e, s, [])
    | .ok idx =>
      let s1 : Sys := { s with index := idx }
      match Index.Find srcNameOrId s1 with
      | none => (.error ("No such image: " ++ srcNameOrId), s1, [])
      | some src =>
        match NewImage computeId now dstName src.layers src.id with
        | .error e => (.error e, s1, [])
        | .ok dst =>
          let r := Index.Add dstName dst s1
          match r.1 with
          | .error e => (.error e, r.2.1, r.2.2)
          | .ok _ =>
            (.ok dst, Index.save r.2.1.index, r.2.2 ++ r.2.1.index.saveOps)

/-- The loop of `Index.Rename` (src/image/image.go:174-183), processing the
moved history front to back: recompute each image's id under the new name,
register the image under the new id, delete the old id.  On a failing
recomputation Go returns mid-loop; the partially rewritten history and
`ById` map are returned alongside the error. -/
def renameImages (computeId : String → String) (newName : String) :
    List Image → List (String × Image) →
    Option String × List Image × List (String × Image)
  | [], byId => (none, [], byId)
  | image :: rest, byId =>
    match generateImageId computeId newName image.layers with
    | .error e => (some e, image :: rest, byId)
    | .ok newId =>
      let image' := { image with id := newId }
      let byId' := merase image.id (minsert newId image' byId)
      let r := renameImages computeId newName rest byId'
      (r.1, image' :: r.2.1, r.2.2)

/-- Embeds `Index.Rename` (src/image/image.go:160-189): load; the old name
must exist and the new name must be free; the history moves to the new
name; every image in it gets its id recomputed from the new name and its
layers and is reindexed in `ById`; a single save persists the result.  The
history object is shared (Go mutates the images in place), so the moved
entry holds the rewritten images even on a mid-loop error, and no save
happens on any error path. -/
def Index.Rename (computeId : String → String) (oldName newName : String)
    (s : Sys) : MutRes :=
  match Index.load s with
  | .error e => (.error e, s, [])
  | .ok idx =>
    match mlookup oldName idx.byName with
    | none =>
        (.error ("Can't rename " ++ oldName ++ ": no such image."),
         { s with index := idx }, [])
    | some hist =>
      match mlookup newName idx.byName with
      | some _ =>
          (.error ("Can't rename to " ++ newName ++ ": name is already in use."),
           { s with index := idx }, [])
      | none =>
        let byName1 := merase oldName (minsert newName hist idx.byName)
        let res := renameImages computeId newName hist idx.byId
        let idx' : Index :=
          { idx with byName := minsert newName res.2.1 byName1, byId := res.2.2 }
        match res.1 with
        | some e => (.error e, { s with index := idx' }, [])
        | none => (.ok (), Index.save idx', idx'.saveOps)

/-- Embeds `Index.Delete` (src/image/image.go:192-211): load; the name must
exist; every image of its history leaves `ById`, the name leaves `ByName`,
and the result is saved. -/
def Index.Delete (name : String) (s : Sys) : MutRes :=
  match Index.load s with
  | .error e => (.error e, s, [])
  | .ok idx =>
    match mlookup name idx.byName with
    | none => (.error ("No such image: " ++ name), { s with index := idx }, [])
    | some hist =>
      let idx' : Index :=
        { idx with
          byName := merase name idx.byName,
          byId := hist.foldl (fun m image => merase image.id m) idx.byId }
      (.ok (), Index.save idx', idx'.saveOps)

/-- Embeds `Index.Names` (src/image/image.go:238-248): a load failure gives
the empty list; otherwise the registered names, sorted ascending. -/
def Index.Names (s : Sys) : List String :=
  match Index.load s with
  | .error _ => []
  | .ok idx => List.insertionSort (· ≤ ·) (idx.byName.map (fun p => p.1))

/-- Embeds `Store.Create` (src/image/image.go:64-73): build the image value
and register it in the index. -/
def Store.Create (computeId : String → String) (now : Nat)
    (name source : String) (layers : List String) (s : Sys) :
    Except String Image × Sys × List FsOp :=
  match NewImage computeId now name layers source with
  | .error e => (.error e, s, [])
  | .ok image =>
    let r := Index.Add name image s
    match r.1 with
    | .error e => (.error e, r.2)
    | .ok _ => (.ok image, r.2)

/-- Embeds `Store.Import` (src/image/image.go:48-62).  `AddLayer` belongs
to the layer store (not among the verified sources); its successful result
is the parameter `newLayer` (its failure path returns before anything else
happens).  The new image's layers are the new layer followed by the
parent's layers, and its parent field is the parent's id (empty without a
parent). -/
def Store.Import (computeId : String → String) (now : Nat)
    (newLayer : String) (name : String) (parent : Option Image) (s : Sys) :
    Except String Image × Sys × List FsOp :=
  let layers := newLayer :: (match parent with
    | some p => p.layers
    | none => [])
  let parentId := match parent with
    | some p => p.id
    | none => ""
  Store.Create computeId now name parentId layers s

/-! ### Container creation (src/unnamed/part_000, Server.CreateContainer)

The container runtime (`srv.containers`, package `docker`) is not among the
verified sources; its operations are modelled from the spec (§4.6): `create`
allocates and records a fresh container (without starting it), `destroy`
removes the container's record, `setUserData` stores container-scoped
metadata.  Environmental failures of `Create` and `SetUserData` are supplied
as parameters (`createErr`, `udErr`).  `future.RandomId()[:8]` is the
parameter `id`. -/

/-- A container record, reduced to the fields `Server.CreateContainer`
touches (§3: id, entry command, layers from the source image, exposed
ports, user metadata). -/
structure Container where
  id       : String
  path     : String
  args     : List String
  layers   : List String
  ports    : List Nat
  userData : List (String × String)
deriving DecidableEq, Repr

/-- Modelled from the spec: the runtime's container table (§4.6). -/
abbrev Runtime := List Container

/-- Modelled from the spec: `srv.containers.Create` allocates the record
and registers it; the process is not started (§4.6). -/
def Runtime.createContainer (rt : Runtime) (id cmd : String)
    (args layers : List String) (ports : List Nat) : Container × Runtime :=
  let c : Container :=
    { id := id, path := cmd, args := args, layers := layers,
      ports := ports, userData := [] }
  (c, rt ++ [c])

/-- Modelled from the spec: `srv.containers.Destroy` removes the
container's record (§4.6). -/
def Runtime.destroy (rt : Runtime) (c : Container) : Runtime :=
  rt.filter (fun c' => c'.id ≠ c.id)

/-- Modelled from the spec: `SetUserData(key, value)` stores container
metadata (§4.6). -/
def Container.setUserData (c : Container) (key value : String) : Container :=
  { c with userData := minsert key value c.userData }

/-- Replace the record of container `c` (same id) in the table. -/
def Runtime.update (rt : Runtime) (c : Container) : Runtime :=
  rt.map (fun c' => if c'.id = c.id then c else c')

/-- Embeds `Server.CreateContainer` (src/unnamed/part_000:715-731): create
the record; assign the "image" metadata, destroying the container and
returning the error if that fails; assign the "comment" metadata, likewise
destroying on failure; otherwise return the container.  `createErr`
and `udErr key` supply the environmental outcome of `containers.Create`
and of `SetUserData key`. -/
def Server.CreateContainer (createErr : Option String)
    (udErr : String → Option String) (rt : Runtime) (id : String)
    (img : Image) (ports : List Nat) (comment cmd : String)
    (args : List String) : Except String Container × Runtime :=
  match createErr with
  | some e => (.error e, rt)
  | none =>
    let (container, rt1) := rt.createContainer id cmd args img.layers ports
    match udErr "image" with
    | some e =>
        (.error ("Error setting container userdata: " ++ e),
         rt1.destroy container)
    | none =>
      let c1 := container.setUserData "image" img.id
      let rt2 := rt1.update c1
      match udErr "comment" with
      | some e =>
          (.error ("Error setting container userdata: " ++ e),
           rt2.destroy c1)
      | none =>
        let c2 := c1.setUserData "comment" comment
        (.ok c2, rt2.update c2)

/-! ### Concrete fixtures used by witnesses and counterexamples -/

/-- A concrete stand-in for the abstract digest function. -/
def cid0 : String → String := fun s => s

def idx0 : Index := { path := "index.json", byName := [], byId := [] }

/-- An empty system: no index file yet, freshly constructed index. -/
def sys0 : Sys := { disk := .missing, index := idx0 }

def imgOld : Image := { id := "n:a", layers := ["/l/a"], created := 10, parent := "" }

def imgNew : Image := { id := "n:b", layers := ["/l/b"], created := 5, parent := "" }

/-- A catalog holding one image, `imgOld`, under the name "n". -/
def sysN : Sys :=
  { disk := .missing,
    index := { path := "index.json",
               byName := [("n", [imgOld])], byId := [("n:a", imgOld)] } }

def imgA : Image := { id := "a:h1", layers := ["/layers/h1"], created := 0, parent := "" }

def imgB : Image := { id := "a:h1:h2", layers := ["/layers/h2"], created := 0, parent := "" }

/-- A catalog where the name "a:h1" is shadowed by the id of the image
filed under the name "a". -/
def sysShadow : Sys :=
  { disk := .missing,
    index := { path := "index.json",
               byName := [("a", [imgA]), ("a:h1", [imgB])],
               byId := [("a:h1", imgA), ("a:h1:h2", imgB)] } }

def img1 : Image := { id := "a:x", layers := ["/l/x"], created := 3, parent := "" }

/-- A catalog holding one image, `img1`, under the name "a". -/
def sysA : Sys :=
  { disk := .missing,
    index := { path := "index.json",
               byName := [("a", [img1])], byId := [("a:x", img1)] } }

/-- `sys0` with an unreadable or unparsable index file. -/
def sysInvalid : Sys := { disk := .invalid, index := idx0 }

/-- The image an entry of a renamed history becomes: same value, id
recomputed from the new name and its layers (the success case of the loop
body of `Index.Rename`). -/
def updImage (computeId : String → String) (newName : String) (img : Image) : Image :=
  { img with id := newName ++ ":" ++ imageHash computeId img.layers }

/-- Every filesystem operation in the trace is a plain in-place write of a
whole document to the path `p` — no temporary file, no rename. -/
def directWrites (p : String) (tr : List FsOp) : Prop :=
  ∀ op ∈ tr, ∃ d, op = FsOp.write p d

/-- The persistence shape of one mutating index operation: every emitted
filesystem operation is a direct in-place write to `p`, and if anything at
all was written, the last (here: only per save) write carries the
serialized final in-memory index, which the disk then holds. -/
def SaveShape (p : String) (r : Sys × List FsOp) : Prop :=
  directWrites p r.2 ∧
  (r.2 = [] ∨
    (∃ pre, r.2 = pre ++ [FsOp.write p (serialize r.1.index)]) ∧
      r.1.disk = .valid (serialize r.1.index))

/-- The image produced by importing the layer "/l/n" as "nm" over parent
`imgOld` at time 9 (used by the C2 witness). -/
def imgC2 : Image :=
  { id := "nm:na", layers := ["/l/n", "/l/a"], created := 9, parent := "n:a" }

/-- A concrete container inhabiting witness states. -/
def contW : Container :=
  { id := "11111111", path := "/bin/sh", args := [], layers := ["/l/a"],
    ports := [], userData := [] }

/-- A user-metadata environment whose "comment" assignment fails. -/
def udErrW : String → Option String :=
  fun key => if key = "comment" then some "disk full" else none

/-! ### Supporting lemmas -/

theorem merase_cons_self {α : Type} {k : String} {p : String × α}
    (h : p.1 = k) (t : List (String × α)) : merase k (p :: t) = merase k t := by
  simp [merase, List.filter_cons, h]

theorem merase_cons_ne {α : Type} {k : String} {p : String × α}
    (h : ¬ p.1 = k) (t : List (String × α)) :
    merase k (p :: t) = p :: merase k t := by
  simp [merase, List.filter_cons, h]

theorem mlookup_merase_self {α : Type} (k : String) (m : List (String × α)) :
    mlookup k (merase k m) = none := by
  induction m with
  | nil => rfl
  | cons p t ih =>
    obtain ⟨pk, pv⟩ := p
    by_cases h : pk = k
    · rw [merase_cons_self h]; exact ih
    · rw [merase_cons_ne h, mlookup, if_neg h]; exact ih

theorem mlookup_merase_ne {α : Type} {k k' : String} (h : k' ≠ k)
    (m : List (String × α)) : mlookup k' (merase k m) = mlookup k' m := by
  induction m with
  | nil => rfl
  | cons p t ih =>
    obtain ⟨pk, pv⟩ := p
    by_cases hp : pk = k
    · have hp' : ¬ pk = k' := by rw [hp]; exact Ne.symm h
      rw [merase_cons_self hp, ih, mlookup, if_neg hp']
    · rw [merase_cons_ne hp, mlookup, mlookup]
      by_cases hpk' : pk = k'
      · rw [if_pos hpk', if_pos hpk']
      · rw [if_neg hpk', if_neg hpk', ih]

theorem mlookup_minsert_self {α : Type} (k : String) (v : α)
    (m : List (String × α)) : mlookup k (minsert k v m) = some v := by
  simp [minsert, mlookup]

theorem mlookup_minsert_ne {α : Type} {k k' : String} (h : k' ≠ k) (v : α)
    (m : List (String × α)) : mlookup k' (minsert k v m) = mlookup k' m := by
  have : ¬ k = k' := fun hk => h hk.symm
  simp [minsert, mlookup, this, mlookup_merase_ne h]

theorem load_path {s : Sys} {idx : Index} (h : Index.load s = .ok idx) :
    idx.path = s.index.path := by
  cases hd : s.disk <;> simp [Index.load, hd] at h
  · rw [← h]
  · rw [← h]

theorem generateImageId_ok (computeId : String → String) (name : String) :
    ∀ layers : List String, layers ≠ [] →
      generateImageId computeId name layers =
        .ok (name ++ ":" ++ imageHash computeId layers)
  | [], h => absurd rfl h
  | [_], _ => rfl
  | _ :: _ :: _, _ => rfl

theorem renameImages_cons (computeId : String → String) (newName : String)
    (img : Image) (rest : List Image) (byId : List (String × Image))
    (h : img.layers ≠ []) :
    renameImages computeId newName (img :: rest) byId =
      ((renameImages computeId newName rest
          (merase img.id (minsert (updImage computeId newName img).id
            (updImage computeId newName img) byId))).1,
       updImage computeId newName img ::
         (renameImages computeId newName rest
            (merase img.id (minsert (updImage computeId newName img).id
              (updImage computeId newName img) byId))).2.1,
       (renameImages computeId newName rest
          (merase img.id (minsert (updImage computeId newName img).id
            (updImage computeId newName img) byId))).2.2) := by
  have hg := generateImageId_ok computeId newName img.layers h
  simp only [renameImages, hg]
  rfl

theorem renameImages_ok (computeId : String → String) (newName : String) :
    ∀ (imgs : List Image) (byId : List (String × Image)),
      (∀ i ∈ imgs, i.layers ≠ []) →
      (renameImages computeId newName imgs byId).1 = none ∧
      (renameImages computeId newName imgs byId).2.1 =
        imgs.map (updImage computeId newName)
  | [], _, _ => ⟨rfl, rfl⟩
  | img :: rest, byId, h => by
    have ih := renameImages_ok computeId newName rest
      (merase img.id (minsert (updImage computeId newName img).id
        (updImage computeId newName img) byId))
      (fun i hi => h i (List.mem_cons_of_mem img hi))
    rw [renameImages_cons computeId newName img rest byId
      (h img (List.mem_cons_self img rest))]
    exact ⟨ih.1, by rw [List.map_cons, ih.2]⟩

theorem renameImages_preserve (computeId : String → String) (newName : String) :
    ∀ (imgs : List Image) (byId : List (String × Image)) (k : String),
      (∀ i ∈ imgs, i.layers ≠ []) →
      (∀ i ∈ imgs, (updImage computeId newName i).id ≠ k ∧ i.id ≠ k) →
      mlookup k (renameImages computeId newName imgs byId).2.2 = mlookup k byId
  | [], _, _, _, _ => rfl
  | img :: rest, byId, k, hne, h => by
    rw [renameImages_cons computeId newName img rest byId
      (hne img (List.mem_cons_self img rest))]
    rw [renameImages_preserve computeId newName rest _ k
      (fun i hi => hne i (List.mem_cons_of_mem img hi))
      (fun i hi => h i (List.mem_cons_of_mem img hi))]
    rw [mlookup_merase_ne (Ne.symm (h img (List.mem_cons_self img rest)).2)]
    rw [mlookup_minsert_ne (Ne.symm (h img (List.mem_cons_self img rest)).1)]

theorem renameImages_none (computeId : String → String) (newName : String) :
    ∀ (imgs : List Image) (byId : List (String × Image)) (k : String),
      (∀ i ∈ imgs, i.layers ≠ []) →
      (∀ i ∈ imgs, (updImage computeId newName i).id ≠ k) →
      (mlookup k byId = none ∨ k ∈ imgs.map (fun i => i.id)) →
      mlookup k (renameImages computeId newName imgs byId).2.2 = none
  | [], byId, k, _, _, hsrc => by
    cases hsrc with
    | inl h0 => exact h0
    | inr h0 => simp at h0
  | img :: rest, byId, k, hne, hnew, hsrc => by
    rw [renameImages_cons computeId newName img rest byId
      (hne img (List.mem_cons_self img rest))]
    have hne' : ∀ i ∈ rest, i.layers ≠ [] :=
      fun i hi => hne i (List.mem_cons_of_mem img hi)
    have hnew' : ∀ i ∈ rest, (updImage computeId newName i).id ≠ k :=
      fun i hi => hnew i (List.mem_cons_of_mem img hi)
    by_cases hik : img.id = k
    · refine renameImages_none computeId newName rest _ k hne' hnew' (Or.inl ?_)
      rw [← hik]
      exact mlookup_merase_self img.id _
    · have hstep : mlookup k (merase img.id (minsert (updImage computeId newName img).id
          (updImage computeId newName img) byId)) = mlookup k byId := by
        rw [mlookup_merase_ne (Ne.symm hik)]
        rw [mlookup_minsert_ne (Ne.symm (hnew img (List.mem_cons_self img rest)))]
      cases hsrc with
      | inl h0 =>
        exact renameImages_none computeId newName rest _ k hne' hnew'
          (Or.inl (hstep.trans h0))
      | inr h0 =>
        rw [List.map_cons, List.mem_cons] at h0
        cases h0 with
        | inl h1 => exact absurd h1.symm hik
        | inr h1 =>
          exact renameImages_none computeId newName rest _ k hne' hnew' (Or.inr h1)

theorem renameImages_some (computeId : String → String) (newName : String) :
    ∀ (imgs : List Image) (byId : List (String × Image)) (tgt : Image),
      tgt ∈ imgs →
      (∀ i ∈ imgs, i.layers ≠ []) →
      imgs.Pairwise (fun a b =>
        (updImage computeId newName a).id ≠ (updImage computeId newName b).id) →
      (∀ a ∈ imgs, ∀ b ∈ imgs, (updImage computeId newName a).id ≠ b.id) →
      mlookup (updImage computeId newName tgt).id
          (renameImages computeId newName imgs byId).2.2 =
        some (updImage computeId newName tgt)
  | [], _, _, hmem, _, _, _ => absurd hmem (List.not_mem_nil _)
  | img :: rest, byId, tgt, hmem, hne, hpair, hdisj => by
    rw [renameImages_cons computeId newName img rest byId
      (hne img (List.mem_cons_self img rest))]
    have hne' : ∀ i ∈ rest, i.layers ≠ [] :=
      fun i hi => hne i (List.mem_cons_of_mem img hi)
    obtain ⟨hhead, htail⟩ := List.pairwise_cons.mp hpair
    cases List.mem_cons.mp hmem with
    | inl heq =>
      subst heq
      rw [renameImages_preserve computeId newName rest _ _ hne'
        (fun i hi => ⟨Ne.symm (hhead i hi),
          Ne.symm (hdisj tgt (List.mem_cons_self tgt rest) i
            (List.mem_cons_of_mem tgt hi))⟩)]
      rw [mlookup_merase_ne
        (hdisj tgt (List.mem_cons_self tgt rest) tgt (List.mem_cons_self tgt rest))]
      exact mlookup_minsert_self _ _ _
    | inr hmem' =>
      exact renameImages_some computeId newName rest _ tgt hmem' hne' htail
        (fun a ha b hb => hdisj a (List.mem_cons_of_mem img ha)
          b (List.mem_cons_of_mem img hb))

theorem directWrites_nil (p : String) : directWrites p [] :=
  fun op h => absurd h (List.not_mem_nil op)

theorem directWrites_saveOps {p : String} {idx : Index} (h : idx.path = p) :
    directWrites p idx.saveOps := by
  intro op hop
  simp only [Index.saveOps, List.mem_singleton] at hop
  exact ⟨serialize idx, by rw [hop, h]⟩

theorem directWrites_append {p : String} {t1 t2 : List FsOp}
    (h1 : directWrites p t1) (h2 : directWrites p t2) :
    directWrites p (t1 ++ t2) :=
  fun op hop => (List.mem_append.mp hop).elim (h1 op) (h2 op)

theorem saveShape_nil (p : String) (s : Sys) : SaveShape p (s, []) :=
  ⟨directWrites_nil p, Or.inl rfl⟩

theorem saveShape_save {p : String} (idx : Index) (h : idx.path = p) :
    SaveShape p (Index.save idx, idx.saveOps) := by
  refine ⟨directWrites_saveOps h, Or.inr ⟨⟨[], ?_⟩, rfl⟩⟩
  simp [Index.saveOps, Index.save, h]

theorem add_saveShape (s : Sys) (name : String) (image : Image) :
    SaveShape s.index.path (Index.Add name image s).2 ∧
    (Index.Add name image s).2.1.index.path = s.index.path := by
  cases hl : Index.load s with
  | error e => simp only [Index.Add, hl]; exact ⟨saveShape_nil _ s, by trivial⟩
  | ok idx =>
    have hp := load_path hl
    cases hn : mlookup name idx.byName with
    | none => simp only [Index.Add, hl, hn]; exact ⟨saveShape_save _ hp, hp⟩
    | some hist =>
      cases hist with
      | nil => simp only [Index.Add, hl, hn]; exact ⟨saveShape_nil _ _, hp⟩
      | cons top rest =>
        by_cases htop : top.id = image.id
        · simp only [Index.Add, hl, hn, if_pos htop]
          exact ⟨saveShape_nil _ _, hp⟩
        · simp only [Index.Add, hl, hn, if_neg htop]
          exact ⟨saveShape_save _ hp, hp⟩

theorem delete_saveShape (s : Sys) (name : String) :
    SaveShape s.index.path (Index.Delete name s).2 := by
  cases hl : Index.load s with
  | error e => simp only [Index.Delete, hl]; exact saveShape_nil _ s
  | ok idx =>
    have hp := load_path hl
    cases hn : mlookup name idx.byName with
    | none => simp only [Index.Delete, hl, hn]; exact saveShape_nil _ _
    | some hist => simp only [Index.Delete, hl, hn]; exact saveShape_save _ hp

theorem rename_saveShape (computeId : String → String) (s : Sys)
    (oldName newName : String) :
    SaveShape s.index.path (Index.Rename computeId oldName newName s).2 := by
  cases hl : Index.load s with
  | error e => simp only [Index.Rename, hl]; exact saveShape_nil _ s
  | ok idx =>
    have hp := load_path hl
    cases ho : mlookup oldName idx.byName with
    | none => simp only [Index.Rename, hl, ho]; exact saveShape_nil _ _
    | some hist =>
      cases hn : mlookup newName idx.byName with
      | some hist2 => simp only [Index.Rename, hl, ho, hn]; exact saveShape_nil _ _
      | none =>
        cases herr : (renameImages computeId newName hist idx.byId).1 with
        | some e => simp only [Index.Rename, hl, ho, hn, herr]; exact saveShape_nil _ _
        | none => simp only [Index.Rename, hl, ho, hn, herr]; exact saveShape_save _ hp

theorem copy_saveShape (computeId : String → String) (now : Nat)
    (src dst : String) (s : Sys) :
    SaveShape s.index.path (Index.Copy computeId now src dst s).2 := by
  by_cases hempty : src = "" ∨ dst = ""
  · simp only [Index.Copy, if_pos hempty]; exact saveShape_nil _ s
  · cases hl : Index.load s with
    | error e => simp only [Index.Copy, if_neg hempty, hl]; exact saveShape_nil _ s
    | ok idx =>
      have hp := load_path hl
      cases hf : Index.Find src { s with index := idx } with
      | none => simp only [Index.Copy, if_neg hempty, hl, hf]; exact saveShape_nil _ _
      | some srcImg =>
        cases hni : NewImage computeId now dst srcImg.layers srcImg.id with
        | error e =>
          simp only [Index.Copy, if_neg hempty, hl, hf, hni]
          exact saveShape_nil _ _
        | ok dstImg =>
          have hadd := add_saveShape { s with index := idx } dst dstImg
          have hpath1 : ({ s with index := idx } : Sys).index.path = s.index.path := hp
          cases hr : (Index.Add dst dstImg { s with index := idx }).1 with
          | error e =>
            simp only [Index.Copy, if_neg hempty, hl, hf, hni, hr]
            rw [hpath1] at hadd
            exact hadd.1
          | ok u =>
            simp only [Index.Copy, if_neg hempty, hl, hf, hni, hr]
            rw [hpath1] at hadd
            have hpath2 := hadd.2
            refine ⟨directWrites_append hadd.1.1 (directWrites_saveOps hpath2), ?_⟩
            refine Or.inr ⟨⟨(Index.Add dst dstImg { s with index := idx }).2.2, ?_⟩, rfl⟩
            simp [Index.saveOps, Index.save, hpath2]

theorem update_fresh :
    ∀ (rt : Runtime) (c : Container), (∀ x ∈ rt, x.id ≠ c.id) →
      rt.update c = rt
  | [], _, _ => rfl
  | a :: t, c, h => by
    have ha : ¬ a.id = c.id := h a (List.mem_cons_self a t)
    show ((if a.id = c.id then c else a) :: Runtime.update t c) = a :: t
    rw [if_neg ha, update_fresh t c (fun x hx => h x (List.mem_cons_of_mem a hx))]

theorem destroy_fresh (rt : Runtime) (c : Container)
    (h : ∀ x ∈ rt, x.id ≠ c.id) : rt.destroy c = rt :=
  List.filter_eq_self.mpr (fun x hx => decide_eq_true (h x hx))

theorem destroy_append (rt : Runtime) (c : Container)
    (h : ∀ x ∈ rt, x.id ≠ c.id) : Runtime.destroy (rt ++ [c]) c = rt := by
  show List.filter _ (rt ++ [c]) = rt
  rw [List.filter_append]
  have h1 : List.filter (fun c' => decide (c'.id ≠ c.id)) [c] = [] := by simp
  rw [h1, List.append_nil]
  exact destroy_fresh rt c h

theorem update_append (rt : Runtime) (c c' : Container) (hid : c'.id = c.id)
    (h : ∀ x ∈ rt, x.id ≠ c.id) : Runtime.update (rt ++ [c]) c' = rt ++ [c'] := by
  show List.map _ (rt ++ [c]) = rt ++ [c']
  rw [List.map_append]
  have h1 : rt.map (fun x => if x.id = c'.id then c' else x) = rt :=
    update_fresh rt c' (fun x hx heq => h x hx (heq.trans hid))
  rw [h1]
  congr 1
  show (if c.id = c'.id then c' else c) :: ([] : Runtime) = [c']
  rw [if_pos hid.symm]

/-! ### Claim theorems -/

/-- C1: every image built by `NewImage(name, layers, parent)` with a
non-empty layer list has `id = name ++ ":" ++ hash`, where `hash` is the
digest (path basename) of the single layer when there is exactly one layer,
and otherwise the `ComputeId` digest of the concatenated layer digests;
`NewImage` fails when `layers` is empty. -/
theorem C1_newImage_id (computeId : String → String) (now : Nat)
    (name parent : String) (layers : List String) :
    (layers = [] →
      NewImage computeId now name layers parent = .error "No layers provided.") ∧
    (∀ l, layers = [l] →
      NewImage computeId now name layers parent =
        .ok { id := name ++ ":" ++ basename l, layers := layers,
              created := now, parent := parent }) ∧
    (∀ l1 l2 rest, layers = l1 :: l2 :: rest →
      NewImage computeId now name layers parent =
        .ok { id := name ++ ":" ++ computeId (layersConcatIds layers),
              layers := layers, created := now, parent := parent }) := by
  refine ⟨?_, ?_, ?_⟩
  · rintro rfl; rfl
  · rintro l rfl; rfl
  · rintro l1 l2 rest rfl; rfl

/-- Witness for C1 at a concrete one-layer input: the id is the name, a
colon, and the layer path's basename. -/
theorem C1_newImage_id_witness :
    NewImage cid0 7 "base" ["/l/x"] "" =
      .ok { id := "base:x", layers := ["/l/x"], created := 7, parent := "" } := by
  have h := (C1_newImage_id cid0 7 "base" "" ["/l/x"]).2.1 "/l/x" rfl
  rw [h]
  rfl

/-- C4: after `History.Add(image)` the history is sorted by creation time
descending: at every pair of adjacent positions the later entry's `created`
is at most the earlier entry's. -/
theorem C4_history_sorted (history : History) (image : Image) (k : Nat)
    (hk1 : k < (History.add image history).length)
    (hk2 : k + 1 < (History.add image history).length) :
    ((History.add image history).get ⟨k + 1, hk2⟩).created ≤
      ((History.add image history).get ⟨k, hk1⟩).created := by
  have hs : List.Pairwise createdDesc (History.add image history) :=
    List.sorted_insertionSort createdDesc (history ++ [image])
  exact List.pairwise_iff_get.mp hs ⟨k, hk1⟩ ⟨k + 1, hk2⟩ (Nat.lt_succ_self k)

/-- Witness for C4 on a concrete two-element history. -/
theorem C4_history_sorted_witness :
    ((History.add imgOld [imgNew]).get ⟨1, by decide⟩).created ≤
      ((History.add imgOld [imgNew]).get ⟨0, by decide⟩).created :=
  C4_history_sorted [imgNew] imgOld 0 (by decide) (by decide)

/-- C10: when the index file exists but fails to load, `Find` returns
absent and `Names` returns the empty list — neither read interface can
report an error (their Go return types carry none), so the failure is
indistinguishable from the entity not existing. -/
theorem C10_reads_mask_load_failure (s : Sys) (idOrName : String)
    (h : s.disk = .invalid) :
    Index.Find idOrName s = none ∧ Index.Names s = [] := by
  constructor <;> simp [Index.Find, Index.Names, Index.load, h]

/-- Witness for C10 on a concrete unloadable state. -/
theorem C10_reads_mask_load_failure_witness :
    Index.Find "base" sysInvalid = none ∧ Index.Names sysInvalid = [] :=
  C10_reads_mask_load_failure sysInvalid "base" rfl

/-- C6 counterexample: `Index.Add` performs no empty-string validation —
adding under the empty name succeeds and registers the empty name, and
`Index.Rename` happily renames an image to the empty name; neither fails
with an invalid-argument error as the claim demands. -/
theorem C6_empty_name_counterexample :
    (Index.Add "" imgNew sys0).1 = .ok () ∧
    mlookup "" (Index.Add "" imgNew sys0).2.1.index.byName = some [imgNew] ∧
    (Index.Rename cid0 "n" "" sysN).1 = .ok () := ⟨rfl, rfl, rfl⟩

/-- C6 (amended): only `Index.Copy` validates emptiness — an empty source
or destination name fails up front with "Illegal image name", before any
load or mutation, leaving the whole state unchanged and writing nothing.
The other index operations perform no empty-string validation: when the
empty name is unregistered, `Delete` and `Rename` fail with their ordinary
not-found errors (no mutation, nothing written), and `Find` of an empty
string matching no id and no name returns absent. -/
theorem C6_copy_empty_guard (computeId : String → String) (now : Nat)
    (src dst : String) (s : Sys) :
    (src = "" ∨ dst = "" →
      Index.Copy computeId now src dst s = (.error "Illegal image name", s, [])) ∧
    (∀ idx, Index.load s = .ok idx → mlookup "" idx.byName = none →
      (Index.Delete "" s =
          (.error ("No such image: " ++ ""), { s with index := idx }, []) ∧
        (Index.Rename computeId "" dst s).1 =
          .error ("Can't rename " ++ "" ++ ": no such image.")) ∧
      (mlookup "" idx.byId = none → Index.Find "" s = none)) := by
  constructor
  · intro h
    unfold Index.Copy
    rw [if_pos h]
  · intro idx hload hname
    refine ⟨⟨?_, ?_⟩, ?_⟩
    · simp only [Index.Delete, hload, hname]
    · simp only [Index.Rename, hload, hname]
    · intro hid
      simp only [Index.Find, hload, hid, hname]

/-- Witness for the amended C6 on a concrete catalog: Copy's guard fires on
an empty source, while Delete, Rename and Find of the unregistered empty
name take their ordinary not-found/absent paths. -/
theorem C6_copy_empty_guard_witness :
    Index.Copy cid0 0 "" "dst" sysN = (.error "Illegal image name", sysN, []) ∧
    (Index.Delete "" sysN).1 = .error ("No such image: " ++ "") ∧
    (Index.Rename cid0 "" "dst" sysN).1 =
      .error ("Can't rename " ++ "" ++ ": no such image.") ∧
    Index.Find "" sysN = none := by
  have h := C6_copy_empty_guard cid0 0 "" "dst" sysN
  have h2 := h.2 sysN.index rfl rfl
  exact ⟨h.1 (Or.inl rfl), by rw [h2.1.1], h2.1.2, h2.2 rfl⟩

/-- C7 counterexample: on a present-but-invalid index file, `Index.Add`
fails with the load error, whereas on an empty catalog (missing file) the
same `Add` succeeds — an invalid file does not behave as an empty index for
the mutating operations. -/
theorem C7_invalid_file_counterexample :
    (Index.Add "a" imgNew sysInvalid).1 = .error loadErr ∧
    (Index.Add "a" imgNew sys0).1 = .ok () := ⟨rfl, rfl⟩

/-- C7 (amended): a missing index file loads as success and leaves the
in-memory index unchanged (so a fresh index behaves as an empty catalog),
but a present-and-invalid file makes `load` fail; the mutating operations
(`Add`, `Delete`, `Rename`) propagate that error and change nothing, while
the read operations `Find` and `Names` swallow it, returning absent and
the empty list. -/
theorem C7_load_missing_vs_invalid (s : Sys) :
    (s.disk = .missing → Index.load s = .ok s.index) ∧
    (s.disk = .invalid →
      Index.load s = .error loadErr ∧
      (∀ name image, Index.Add name image s = (.error loadErr, s, [])) ∧
      (∀ name, Index.Delete name s = (.error loadErr, s, [])) ∧
      (∀ computeId oldName newName,
        Index.Rename computeId oldName newName s = (.error loadErr, s, [])) ∧
      (∀ idOrName, Index.Find idOrName s = none) ∧
      Index.Names s = []) := by
  constructor
  · intro h; simp [Index.load, h]
  · intro h
    refine ⟨?_, ?_, ?_, ?_, ?_, ?_⟩ <;>
      simp [Index.load, Index.Add, Index.Delete, Index.Rename, Index.Find,
        Index.Names, h]

/-- Witness for the amended C7 on concrete missing and invalid states. -/
theorem C7_load_missing_vs_invalid_witness :
    Index.load sys0 = .ok sys0.index ∧
    Index.Add "a" imgNew sysInvalid = (.error loadErr, sysInvalid, []) :=
  ⟨(C7_load_missing_vs_invalid sys0).1 rfl,
   ((C7_load_missing_vs_invalid sysInvalid).2 rfl).2.1 "a" imgNew⟩

/-- C8 counterexample: the filesystem effect of `Index.save` is a single
in-place `WriteFile` of the whole document to the index path; it contains
no rename and differs from the write-then-rename sequence the claim
describes. -/
theorem C8_save_counterexample :
    Index.saveOps idx0 = [FsOp.write "index.json" (serialize idx0)] ∧
    (Index.saveOps idx0).all (fun op => !op.isRename) = true ∧
    Index.saveOps idx0 ≠ saveOpsAtomic "index.json" (serialize idx0) := by
  refine ⟨rfl, rfl, ?_⟩
  decide

/-- C8 (amended): every mutating index operation persists by direct
in-place writes of the whole serialized document to the index path — never
through a temporary file and a rename — and whenever the operation wrote
anything, its last write is the serialized final in-memory index, which
the disk then holds (so a crash mid-write can leave a partially written
file; atomicity is not provided). -/
theorem C8_mutators_save_direct (s : Sys) :
    (∀ name image, SaveShape s.index.path (Index.Add name image s).2) ∧
    (∀ name, SaveShape s.index.path (Index.Delete name s).2) ∧
    (∀ computeId oldName newName,
      SaveShape s.index.path (Index.Rename computeId oldName newName s).2) ∧
    (∀ computeId now src dst,
      SaveShape s.index.path (Index.Copy computeId now src dst s).2) :=
  ⟨fun name image => (add_saveShape s name image).1,
   fun name => delete_saveShape s name,
   fun computeId o n => rename_saveShape computeId s o n,
   fun computeId now a b => copy_saveShape computeId now a b s⟩

/-- Witness for the amended C8: a concrete successful `Add` leaves the disk
holding the serialized result, and its trace is the single direct write. -/
theorem C8_mutators_save_direct_witness :
    (Index.Add "n" imgNew sys0).2.1.disk =
      .valid (serialize (Index.Add "n" imgNew sys0).2.1.index) ∧
    (Index.Add "n" imgNew sys0).2.2 =
      [FsOp.write "index.json" (serialize (Index.Add "n" imgNew sys0).2.1.index)] := by
  have h := (C8_mutators_save_direct sys0).1 "n" imgNew
  refine ⟨?_, rfl⟩
  cases h.2 with
  | inl h0 => exact absurd h0 (by decide)
  | inr h0 => exact h0.2

/-- C3 counterexample: adding an image whose creation time is older than
the name's current newest succeeds but does not make it the newest entry —
the history ends as `[imgOld, imgNew]` with the pre-existing image still at
position 0. -/
theorem C3_add_counterexample :
    (Index.Add "n" imgNew sysN).1 = .ok () ∧
    mlookup "n" (Index.Add "n" imgNew sysN).2.1.index.byName =
      some [imgOld, imgNew] ∧
    imgNew ≠ imgOld := ⟨rfl, rfl, by decide⟩

/-- C3 (amended): `Add(name, image)` is a no-op returning success when the
name's history has an image with the same id at position 0 (nothing is
saved and the state is exactly the reloaded index); otherwise the image is
added to the name's history — which is re-sorted by creation time
descending, so the image ends at position 0 exactly when its creation time
is the newest — registered in `byId`, and the result is saved. -/
theorem C3_add_semantics (s : Sys) (name : String) (image : Image)
    (idx : Index) (hload : Index.load s = .ok idx) :
    (∀ top rest, mlookup name idx.byName = some (top :: rest) →
      top.id = image.id →
      Index.Add name image s = (.ok (), { s with index := idx }, [])) ∧
    (mlookup name idx.byName = none →
      (Index.Add name image s).1 = .ok () ∧
      mlookup name (Index.Add name image s).2.1.index.byName = some [image] ∧
      mlookup image.id (Index.Add name image s).2.1.index.byId = some image ∧
      (Index.Add name image s).2.1.disk =
        .valid (serialize (Index.Add name image s).2.1.index)) ∧
    (∀ top rest, mlookup name idx.byName = some (top :: rest) →
      top.id ≠ image.id →
      (Index.Add name image s).1 = .ok () ∧
      mlookup name (Index.Add name image s).2.1.index.byName =
        some (History.add image (top :: rest)) ∧
      List.Sorted createdDesc (History.add image (top :: rest)) ∧
      List.Perm (History.add image (top :: rest)) ((top :: rest) ++ [image]) ∧
      mlookup image.id (Index.Add name image s).2.1.index.byId = some image ∧
      (Index.Add name image s).2.1.disk =
        .valid (serialize (Index.Add name image s).2.1.index)) := by
  refine ⟨?_, ?_, ?_⟩
  · intro top rest hlk htop
    simp only [Index.Add, hload, hlk, if_pos htop]
  · intro hlk
    simp only [Index.Add, hload, hlk]
    exact ⟨by trivial, mlookup_minsert_self _ _ _, mlookup_minsert_self _ _ _, by trivial⟩
  · intro top rest hlk htop
    simp only [Index.Add, hload, hlk, if_neg htop]
    exact ⟨by trivial, mlookup_minsert_self _ _ _,
      List.sorted_insertionSort createdDesc _,
      List.perm_insertionSort createdDesc _,
      mlookup_minsert_self _ _ _, by trivial⟩

/-- Witness for the amended C3: the concrete non-duplicate add succeeds
and files the re-sorted history. -/
theorem C3_add_semantics_witness :
    (Index.Add "n" imgNew sysN).1 = .ok () ∧
    mlookup "n" (Index.Add "n" imgNew sysN).2.1.index.byName =
      some (History.add imgNew [imgOld]) := by
  have h := (C3_add_semantics sysN "n" imgNew sysN.index rfl).2.2 imgOld [] rfl
    (by decide)
  exact ⟨h.1, h.2.1⟩

theorem create_ok (computeId : String → String) (now : Nat)
    (name source : String) (layers : List String) (s : Sys) (img : Image)
    (hne : layers ≠ [])
    (h : (Store.Create computeId now name source layers s).1 = .ok img) :
    img = { id := name ++ ":" ++ imageHash computeId layers, layers := layers,
            created := now, parent := source } := by
  set imgVal : Image :=
    { id := name ++ ":" ++ imageHash computeId layers, layers := layers,
      created := now, parent := source } with himg
  have hg : NewImage computeId now name layers source = .ok imgVal := by
    unfold NewImage
    rw [generateImageId_ok computeId name layers hne]
    rfl
  unfold Store.Create at h
  rw [hg] at h
  dsimp only at h
  cases hr : (Index.Add name imgVal s).1 with
  | error e => rw [hr] at h; exact absurd h (by simp)
  | ok u => rw [hr] at h; exact (Except.ok.inj h).symm

/-- C2: when `Store.Import(name, stream, parent)` succeeds, the produced
image's layers are the layer digest returned by the layer store for the
stream followed by the parent's layers (just the new layer without a
parent), and its parent field is the parent's id (empty without one). -/
theorem C2_import_chaining (computeId : String → String) (now : Nat)
    (newLayer name : String) (parent : Option Image) (s : Sys) (img : Image)
    (h : (Store.Import computeId now newLayer name parent s).1 = .ok img) :
    img.layers = newLayer :: (match parent with
      | some p => p.layers
      | none => []) ∧
    img.parent = (match parent with
      | some p => p.id
      | none => "") := by
  cases parent with
  | none =>
    dsimp only [Store.Import] at h
    have := create_ok computeId now name "" [newLayer] s img
      (List.cons_ne_nil _ _) h
    subst this
    exact ⟨rfl, rfl⟩
  | some p =>
    dsimp only [Store.Import] at h
    have := create_ok computeId now name p.id (newLayer :: p.layers) s img
      (List.cons_ne_nil _ _) h
    subst this
    exact ⟨rfl, rfl⟩

/-- Witness for C2 on a concrete import over a one-layer parent. -/
theorem C2_import_chaining_witness :
    imgC2.layers = "/l/n" :: imgOld.layers ∧ imgC2.parent = imgOld.id :=
  C2_import_chaining cid0 9 "/l/n" "nm" (some imgOld) sys0 imgC2 rfl

/-- C9: when `CreateContainer` successfully creates the container record
but assigning the "image" or "comment" user metadata fails, the half-built
container is destroyed before the error is returned — the runtime's
container table is exactly what it was before the call, so no
partially-initialized container is retained. -/
theorem C9_createContainer_rollback (udErr : String → Option String)
    (rt : Runtime) (id : String) (img : Image) (ports : List Nat)
    (comment cmd : String) (args : List String)
    (hfresh : ∀ c ∈ rt, c.id ≠ id)
    (hfail : (udErr "image").isSome ∨ (udErr "comment").isSome) :
    (∃ e, (Server.CreateContainer none udErr rt id img ports comment cmd args).1
        = .error e) ∧
    (Server.CreateContainer none udErr rt id img ports comment cmd args).2
        = rt := by
  cases h1 : udErr "image" with
  | some e =>
    constructor
    · exact ⟨"Error setting container userdata: " ++ e,
        by simp only [Server.CreateContainer, Runtime.createContainer, h1]⟩
    · simp only [Server.CreateContainer, Runtime.createContainer, h1]
      exact destroy_append rt _ (fun x hx => hfresh x hx)
  | none =>
    cases h2 : udErr "comment" with
    | none =>
      rw [h1, h2] at hfail
      simp at hfail
    | some e =>
      have hupd : Runtime.update (rt ++
          [{ id := id, path := cmd, args := args, layers := img.layers,
             ports := ports, userData := [] }])
          (Container.setUserData
            { id := id, path := cmd, args := args, layers := img.layers,
              ports := ports, userData := [] } "image" img.id) =
          rt ++ [Container.setUserData
            { id := id, path := cmd, args := args, layers := img.layers,
              ports := ports, userData := [] } "image" img.id] :=
        update_append rt _ _ rfl (fun x hx => hfresh x hx)
      constructor
      · refine ⟨"Error setting container userdata: " ++ e, ?_⟩
        simp only [Server.CreateContainer, Runtime.createContainer, h1, h2]
      · simp only [Server.CreateContainer, Runtime.createContainer, h1, h2]
        rw [hupd]
        exact destroy_append rt _ (fun x hx => hfresh x hx)

/-- Witness for C9: a concrete creation whose "comment" assignment fails
returns an error and leaves the runtime's container table untouched. -/
theorem C9_createContainer_rollback_witness :
    (Server.CreateContainer none udErrW [contW] "22222222" imgOld [] "c"
      "/bin/echo" []).2 = [contW] := by
  have h := C9_createContainer_rollback udErrW [contW] "22222222" imgOld []
    "c" "/bin/echo" [] (by decide) (Or.inr (by decide))
  exact h.2

/-- C5 counterexample: renaming the name "a:h1" (which is shadowed by the
id of the image filed under the name "a") succeeds, yet `Find("a:h1")`
afterwards still returns an image — the id lookup comes first — so
`find(old)` is not absent after a successful rename. -/
theorem C5_rename_counterexample :
    (Index.Rename cid0 "a:h1" "b" sysShadow).1 = .ok () ∧
    Index.Find "a:h1" (Index.Rename cid0 "a:h1" "b" sysShadow).2.1 =
      some imgA := ⟨rfl, rfl⟩

/-- C5 (amended): `Rename(old, new)` fails when `old` is not registered or
`new` is taken, and on any failure nothing is written — the on-disk index
is unchanged (the in-memory cache may be left partially rewritten on a
mid-loop failure).  On success every image previously filed under `old` is
re-filed under `new` with its id recomputed from the new name and its
layers; `old` leaves the name map; the result is saved; provided the
recomputed ids are pairwise distinct and distinct from the replaced ids,
`byId` maps each recomputed id to its image and the replaced ids are gone;
and `find(old)` returns absent provided `old` is not itself an image id
remaining in `byId`. -/
theorem C5_rename_fixup (computeId : String → String) (oldName newName : String)
    (s : Sys) :
    (∀ e, (Index.Rename computeId oldName newName s).1 = .error e →
      (Index.Rename computeId oldName newName s).2.1.disk = s.disk ∧
      (Index.Rename computeId oldName newName s).2.2 = []) ∧
    (∀ idx, Index.load s = .ok idx →
      (mlookup oldName idx.byName = none →
        (Index.Rename computeId oldName newName s).1 =
          .error ("Can't rename " ++ oldName ++ ": no such image.")) ∧
      (∀ hist hist2, mlookup oldName idx.byName = some hist →
        mlookup newName idx.byName = some hist2 →
        (Index.Rename computeId oldName newName s).1 =
          .error ("Can't rename to " ++ newName ++ ": name is already in use.")) ∧
      (∀ hist, mlookup oldName idx.byName = some hist →
        mlookup newName idx.byName = none →
        (∀ i ∈ hist, i.layers ≠ []) →
        (Index.Rename computeId oldName newName s).1 = .ok () ∧
        mlookup oldName
          (Index.Rename computeId oldName newName s).2.1.index.byName = none ∧
        mlookup newName
            (Index.Rename computeId oldName newName s).2.1.index.byName =
          some (hist.map (updImage computeId newName)) ∧
        (Index.Rename computeId oldName newName s).2.1.disk =
          .valid (serialize (Index.Rename computeId oldName newName s).2.1.index) ∧
        (hist.Pairwise (fun a b =>
            (updImage computeId newName a).id ≠ (updImage computeId newName b).id) →
          (∀ a ∈ hist, ∀ b ∈ hist, (updImage computeId newName a).id ≠ b.id) →
          (∀ i ∈ hist,
            mlookup (updImage computeId newName i).id
                (Index.Rename computeId oldName newName s).2.1.index.byId =
              some (updImage computeId newName i)) ∧
          (∀ i ∈ hist,
            mlookup i.id
              (Index.Rename computeId oldName newName s).2.1.index.byId = none)) ∧
        (mlookup oldName idx.byId = none →
          (∀ i ∈ hist, (updImage computeId newName i).id ≠ oldName) →
          Index.Find oldName (Index.Rename computeId oldName newName s).2.1 =
            none))) := by
  constructor
  · -- failure: the disk is untouched and nothing was written
    intro e herr
    cases hl : Index.load s with
    | error e0 => simp only [Index.Rename, hl]; exact ⟨by trivial, by trivial⟩
    | ok idx =>
      cases ho : mlookup oldName idx.byName with
      | none => simp only [Index.Rename, hl, ho]; exact ⟨by trivial, by trivial⟩
      | some hist =>
        cases hn : mlookup newName idx.byName with
        | some hist2 =>
          simp only [Index.Rename, hl, ho, hn]; exact ⟨by trivial, by trivial⟩
        | none =>
          cases he : (renameImages computeId newName hist idx.byId).1 with
          | some e0 =>
            simp only [Index.Rename, hl, ho, hn, he]; exact ⟨by trivial, by trivial⟩
          | none =>
            simp only [Index.Rename, hl, ho, hn, he] at herr
            exact absurd herr (by simp)
  · intro idx hload
    refine ⟨?_, ?_, ?_⟩
    · intro ho
      simp only [Index.Rename, hload, ho]
    · intro hist hist2 ho hn
      simp only [Index.Rename, hload, ho, hn]
    · intro hist ho hn hne
      have hR := renameImages_ok computeId newName hist idx.byId hne
      have hdiff : oldName ≠ newName := by
        intro heq
        rw [heq, hn] at ho
        exact Option.noConfusion ho
      have hRen : Index.Rename computeId oldName newName s =
          (.ok (),
           Index.save { idx with
             byName := minsert newName
               (renameImages computeId newName hist idx.byId).2.1
               (merase oldName (minsert newName hist idx.byName)),
             byId := (renameImages computeId newName hist idx.byId).2.2 },
           Index.saveOps { idx with
             byName := minsert newName
               (renameImages computeId newName hist idx.byId).2.1
               (merase oldName (minsert newName hist idx.byName)),
             byId := (renameImages computeId newName hist idx.byId).2.2 }) := by
        simp only [Index.Rename, hload, ho, hn, hR.1]
      rw [hRen]
      refine ⟨rfl, ?_, ?_, rfl, ?_, ?_⟩
      · -- old name gone from the name map
        show mlookup oldName (minsert newName _ (merase oldName _)) = none
        rw [mlookup_minsert_ne hdiff, mlookup_merase_self]
      · -- new name holds the rewritten history
        show mlookup newName (minsert newName _ _) = _
        rw [mlookup_minsert_self, hR.2]
      · -- byId refiling, under distinctness of the involved ids
        intro hpair hdisj
        constructor
        · intro i hi
          exact renameImages_some computeId newName hist idx.byId i hi hne
            hpair hdisj
        · intro i hi
          exact renameImages_none computeId newName hist idx.byId i.id hne
            (fun b hb => hdisj b hb i hi)
            (Or.inr (List.mem_map_of_mem (fun x => x.id) hi))
      · -- find(old) is absent when old is no image id
        intro hbid hnotold
        have hfinal : mlookup oldName
            (renameImages computeId newName hist idx.byId).2.2 = none :=
          renameImages_none computeId newName hist idx.byId oldName hne
            hnotold (Or.inl hbid)
        show Index.Find oldName (Index.save _) = none
        simp only [Index.Find, Index.load, Index.save, serialize]
        rw [hfinal, mlookup_minsert_ne hdiff, mlookup_merase_self]

/-- Witness for the amended C5: a concrete successful rename of "a" to "b"
re-files the image and `Find("a")` afterwards returns absent. -/
theorem C5_rename_fixup_witness :
    (Index.Rename cid0 "a" "b" sysA).1 = .ok () ∧
    Index.Find "a" (Index.Rename cid0 "a" "b" sysA).2.1 = none := by
  have h := ((C5_rename_fixup cid0 "a" "b" sysA).2 sysA.index rfl).2.2 [img1]
    rfl rfl (by decide)
  exact ⟨h.1, h.2.2.2.2.2 (by decide) (by decide)⟩

end Docker
